import Mathlib

/-!
Verification development for the PracticeTrack ReaScript
(PTKmodules/PTKclasses.py and PTKmodules/PTKutils.py).

Shallow embedding conventions: times, tempi and lengths are rationals;
Reaper host-state mutations performed by the script are recorded as explicit
action traces; fallible paths (Python IndexError on an empty marker list,
the AssertionError in TempoTimeSigMarkerWrapper.clone, the ValueError raised
by TempoTimeSigMarkerWrapper.create) are modelled with Except / Option.
Division on rationals is total (x / 0 = 0); all theorems that depend on a
division hypothesise a positive divisor, matching the domain on which the
Python code runs without a ZeroDivisionError.
-/

namespace PTK

/-- Value content of class TempoTimeSigMarkerWrapper (PTKclasses.py):
time position, tempo, time signature and the linear-tempo flag.  Host
bookkeeping fields (proj, ptidx, deferred, retval, measurepos, beatpos)
carry no information used by the claims and are omitted. -/
structure TempoTimeSigMarkerWrapper where
  timepos : ℚ
  bpm : ℚ
  timesig_num : ℤ
  timesig_denom : ℤ
  lineartempo : Bool
  deriving DecidableEq, Repr

/-- Python dict incountsigd, keyed by time position: an association list;
`dictInsert` mirrors `sigd[k] = v` (overwrite when the key exists,
otherwise append). -/
abbrev SigDict := List (ℚ × TempoTimeSigMarkerWrapper)

/-- Assignment `d[k] = v` on a Python dict modelled as an association list. -/
def dictInsert (d : SigDict) (k : ℚ) (v : TempoTimeSigMarkerWrapper) : SigDict :=
  if d.any (fun p => decide (p.1 = k)) then
    d.map (fun p => if p.1 = k then (k, v) else p)
  else d ++ [(k, v)]

/-- Clone value produced by TempoTimeSigMarkerWrapper.clone (PTKclasses.py,
lines 320-354) before its assert: tempo/signature/linear fields are copied;
the time position is offset (is_offset) or assigned. -/
def TempoTimeSigMarkerWrapper.cloneVal (s : TempoTimeSigMarkerWrapper)
    (time_value : ℚ) (is_offset : Bool) : TempoTimeSigMarkerWrapper :=
  { timepos := if is_offset then s.timepos + time_value else time_value
    bpm := s.bpm
    timesig_num := s.timesig_num
    timesig_denom := s.timesig_denom
    lineartempo := s.lineartempo }

/-- TempoTimeSigMarkerWrapper.clone: the Python method asserts
`cloned.timepos >= 0` (an AssertionError aborts the run), modelled as `none`.
The call sites in replicate pass deferred=True, so no host call happens. -/
def TempoTimeSigMarkerWrapper.clone (s : TempoTimeSigMarkerWrapper)
    (time_value : ℚ) (is_offset : Bool) : Option TempoTimeSigMarkerWrapper :=
  let cloned := s.cloneVal time_value is_offset
  if 0 ≤ cloned.timepos then some cloned else none

/-- equivalentSigs (PTKclasses.py, lines 643-650): same tempo and time
signature and linear-tempo flag. -/
def equivalentSigs (sig1 sig2 : TempoTimeSigMarkerWrapper) : Bool :=
  sig1.bpm == sig2.bpm && sig1.timesig_num == sig2.timesig_num &&
  sig1.timesig_denom == sig2.timesig_denom && sig1.lineartempo == sig2.lineartempo

/-- Equivalence class data compared by equivalentSigs. -/
def sigClass (s : TempoTimeSigMarkerWrapper) : ℚ × ℤ × ℤ × Bool :=
  (s.bpm, s.timesig_num, s.timesig_denom, s.lineartempo)

/-- Descending key sort, `sorted(sigd.keys(), reverse=True)`. -/
def sortDesc (l : List ℚ) : List ℚ :=
  l.insertionSort (fun a b => b ≤ a)

/-- Scan loop of getNonRedundantSigTimes (PTKclasses.py, lines 663-674):
walk the descending key list; each examined key is kept (prepended by
`nrkeys.insert(0, t)`, so the result comes out ascending) iff its sig is not
equivalent to the sig at the next-earlier key.  The loop runs over
`sigtimes_r[0:-1]`, so the last (earliest) key is never examined. -/
def nrScan (sigd : ℚ → TempoTimeSigMarkerWrapper) : List ℚ → List ℚ
  | [] => []
  | [_] => []
  | t :: t2 :: rest =>
    nrScan sigd (t2 :: rest) ++ (if equivalentSigs (sigd t2) (sigd t) then [] else [t])

/-- getNonRedundantSigTimes (PTKclasses.py, lines 653-674).  The Python dict
argument is modelled as its key list (assumed duplicate-free in theorems, as
dict keys are) together with a total lookup function. -/
def getNonRedundantSigTimes (keys : List ℚ)
    (sigd : ℚ → TempoTimeSigMarkerWrapper) : List ℚ :=
  nrScan sigd (sortDesc keys)

/-- Result triple of RPR_TimeMap2_timeToBeats used by the script:
retlist[0] (beats since start of measure), retlist[4] (measure length in
beats) and retlist[6] (time signature denominator). -/
structure BeatInfo where
  beats : ℚ
  cml : ℚ
  cdenom : ℤ

/-- Fields of class MediaItemReplicator (PTKclasses.py, lines 367-498)
set by its constructor.  `end_` stands for the Python attribute `end`. -/
structure MediaItemReplicator where
  pos : ℚ
  length : ℚ
  end_ : ℚ
  posbeats : ℚ
  poscml : ℚ
  poscdenom : ℤ
  posbpm : ℚ
  endbeats : ℚ
  endcml : ℚ
  endcdenom : ℤ
  endbpm : ℚ
  intime : ℚ
  outtime : ℚ
  tempotimesiglist : List TempoTimeSigMarkerWrapper

/-- MediaItemReplicator.__init__ (PTKclasses.py, lines 385-481), abstracted
over the host time map: `timeToBeats` models RPR_TimeMap2_timeToBeats and
`bpmAt` models RPR_TimeMap2_GetDividedBpmAtTime.  The item lookup itself
(selection index vs reference) only fixes pos and length0 and is abstracted
into those two arguments.  The end-of-measure nudge (lines 451-459) fires
when the remapped end lands less than 0.001 beats after a barline: length is
reduced once by 0.001 seconds and the end quantities are recomputed. -/
def mkMediaItemReplicator (timeToBeats : ℚ → BeatInfo) (bpmAt : ℚ → ℚ)
    (pos length0 : ℚ) (tempotimesiglist : List TempoTimeSigMarkerWrapper) :
    MediaItemReplicator :=
  let pb := timeToBeats pos
  let posbpm := bpmAt pos
  let end0 := pos + length0
  let eb0 := timeToBeats end0
  let endbpm0 := bpmAt end0
  let length1 := if eb0.beats < 1/1000 then length0 - 1/1000 else length0
  let end1 := pos + length1
  let eb1 := if eb0.beats < 1/1000 then timeToBeats end1 else eb0
  let endbpm1 := if eb0.beats < 1/1000 then bpmAt end1 else endbpm0
  { pos := pos
    length := length1
    end_ := end1
    posbeats := pb.beats
    poscml := pb.cml
    poscdenom := pb.cdenom
    posbpm := posbpm
    endbeats := eb1.beats
    endcml := eb1.cml
    endcdenom := eb1.cdenom
    endbpm := endbpm1
    intime := (60 / posbpm) * pb.beats
    outtime := (eb1.cml - eb1.beats) * (60 / endbpm1)
    tempotimesiglist := tempotimesiglist }

/-- Host mutations that MediaItemReplicator.replicate performs, in order:
RPR_SetMediaItemSelected, RPR_SetMediaItemInfo_Value(D_POSITION) and
RPR_ApplyNudge with the duplicate flag. -/
inductive HostAction where
  | setMediaItemSelected (selected : Bool)
  | setMediaItemPosition (t : ℚ)
  | applyNudge (amount : ℚ)
  deriving DecidableEq, Repr

/-- Sigs inside the item (PTKclasses.py, line 533):
`self.pos <= sig.timepos < self.pos + self.length`. -/
def MediaItemReplicator.interiorSigs (self : MediaItemReplicator) :
    List TempoTimeSigMarkerWrapper :=
  self.tempotimesiglist.filter
    (fun sig => decide (self.pos ≤ sig.timepos) &&
      decide (sig.timepos < self.pos + self.length))

/-- Selection of insig (PTKclasses.py, lines 531-538): starting from the
first marker, every marker with `timepos <= pos + 0.001` replaces the
current candidate as the loop walks the project list in order. -/
def pickInSig (siglist : List TempoTimeSigMarkerWrapper) (pos : ℚ)
    (s0 : TempoTimeSigMarkerWrapper) : TempoTimeSigMarkerWrapper :=
  siglist.foldl (fun acc sig => if sig.timepos ≤ pos + 1/1000 then sig else acc) s0

/-- Deferred marker built for the incount (PTKclasses.py, lines 551-555 and
579-583): TempoTimeSigMarkerWrapper(proj, None, timepos=t, bpm=insig.bpm,
num=insig.timesig_num, denom=insig.timesig_denom); lineartempo keeps its
default False. -/
def leadMarker (t : ℚ) (insig : TempoTimeSigMarkerWrapper) :
    TempoTimeSigMarkerWrapper :=
  { timepos := t
    bpm := insig.bpm
    timesig_num := insig.timesig_num
    timesig_denom := insig.timesig_denom
    lineartempo := false }

/-- Interior-marker cloning loop of replicate (PTKclasses.py, lines 568-570
and 591-593): for each sig, `incountsigd[t] = sig.clone(t - self.pos,
deferred=True)` - every clone of this placement is stored under the same
key t.  A failing clone assert aborts (none). -/
def cloneItemSigs (itemsigs : List TempoTimeSigMarkerWrapper) (pos t : ℚ)
    (d : SigDict) : Option SigDict :=
  match itemsigs with
  | [] => some d
  | sig :: rest =>
    match sig.clone (t - pos) true with
    | none => none
    | some cloned => cloneItemSigs rest pos t (dictInsert d t cloned)

/-- betweentime (PTKclasses.py, line 558):
`nbetween * self.poscml * 60./self.posbpm`. -/
def MediaItemReplicator.betweenTime (self : MediaItemReplicator)
    (nbetween : ℕ) : ℚ :=
  (nbetween : ℚ) * self.poscml * (60 / self.posbpm)

/-- Duplicate loop of replicate (PTKclasses.py, lines 577-614), one
iteration per requested copy: record an incount marker at the cursor,
advance by betweentime + intime, clone the interior sigs at the new
position, duplicate the item via RPR_ApplyNudge, advance past the item and
its outtime.  An exception (clone assert) yields the trace accumulated so
far as the error value. -/
def dupLoop (self : MediaItemReplicator)
    (itemsigs : List TempoTimeSigMarkerWrapper)
    (insig : TempoTimeSigMarkerWrapper) (betweentime : ℚ) :
    ℕ → ℚ → SigDict → List HostAction →
    Except (List HostAction) (ℚ × SigDict × List HostAction)
  | 0, t, d, acts => .ok (t, d, acts)
  | n + 1, t, d, acts =>
    let d1 := dictInsert d t (leadMarker t insig)
    let t1 := t + betweentime + self.intime
    match cloneItemSigs itemsigs self.pos t1 d1 with
    | none => .error acts
    | some d2 =>
      let nudge := self.length + self.outtime + betweentime + self.intime
      dupLoop self itemsigs insig betweentime n
        (t1 + self.length + self.outtime) d2
        (acts ++ [HostAction.applyNudge nudge])

/-- MediaItemReplicator.replicate (PTKclasses.py, lines 500-623).  Returns
the final cursor, the incountsigd dict and the host-action trace; an
uncaught Python exception is modelled as `.error` carrying the actions
performed before the raise.  An empty project marker list raises IndexError
at `self.tempotimesiglist[0]` (line 531) before any host call.  The single
Python loop over tempotimesiglist computing both itemsigs and insig is split
into interiorSigs (its filter part) and pickInSig (its fold part). -/
def MediaItemReplicator.replicate (self : MediaItemReplicator) (t0 : ℚ)
    (ndups nbetween : ℕ) :
    Except (List HostAction) (ℚ × SigDict × List HostAction) :=
  match self.tempotimesiglist with
  | [] => .error []
  | s0 :: _ =>
    let itemsigs := self.interiorSigs
    let insig := pickInSig self.tempotimesiglist self.pos s0
    let acts0 : List HostAction := [HostAction.setMediaItemSelected true]
    let d0 := dictInsert [] t0 (leadMarker t0 insig)
    let betweentime := self.betweenTime nbetween
    let t1 := t0 + betweentime + self.intime
    let acts1 := acts0 ++
      (if self.pos < t1 then [HostAction.setMediaItemPosition t1] else [])
    match cloneItemSigs itemsigs self.pos t1 d0 with
    | none => .error acts1
    | some d1 =>
      match dupLoop self itemsigs insig betweentime ndups
          (t1 + self.length + self.outtime) d1 acts1 with
      | .error a => .error a
      | .ok (t, d, a) => .ok (t, d, a ++ [HostAction.setMediaItemSelected false])

/-- Net dictionary effect of one cloneItemSigs pass: all clones share the
key t, so later clones overwrite earlier ones and only the clone of the
last interior sig survives. -/
def clonePlacement (itemsigs : List TempoTimeSigMarkerWrapper) (pos t : ℚ)
    (d : SigDict) : SigDict :=
  match itemsigs.getLast? with
  | none => d
  | some sigL => dictInsert d t (sigL.cloneVal (t - pos) true)

/-- Dictionary entries contributed by one placement of the item: the lead-in
marker at t plus (when interior sigs exist) the surviving clone at t + dd,
where dd = betweentime + intime. -/
def placementEntries (pos : ℚ) (itemsigs : List TempoTimeSigMarkerWrapper)
    (insig : TempoTimeSigMarkerWrapper) (dd t : ℚ) : SigDict :=
  clonePlacement itemsigs pos (t + dd) [(t, leadMarker t insig)]

/-- Dictionary entries contributed by n placements starting at cursor t,
each step seconds after the previous one. -/
def placementsDict (pe : ℚ → SigDict) (step : ℚ) : ℕ → ℚ → SigDict
  | 0, _ => []
  | n + 1, t => pe t ++ placementsDict pe step n (t + step)

/-- Result of userInputs (PTKutils.py, lines 14-52) as consumed by run():
None when the dialog was cancelled, False when a field failed type
conversion, otherwise the two parsed integers ndups and nbetween. -/
inductive UserInput where
  | cancelled
  | badInput
  | values (ndups nbetween : ℤ)
  deriving DecidableEq, Repr

/-- Host mutations performed by run() (PTKclasses.py, lines 14-204), in
program order.  itemAction wraps the mutations done inside the
item.replicate calls; createSig is TempoTimeSigMarkerWrapper.create. -/
inductive RunAction where
  | preventUIRefresh (v : ℤ)
  | removeSig
  | unselectAll
  | itemAction (a : HostAction)
  | createSig
  | updateArrange
  deriving DecidableEq, Repr

/-- Terminal condition of one run: an early return before any mutation
(Cancelled in the spec state machine), an uncaught exception, or normal
completion. -/
inductive RunTerminal where
  | cancelled
  | raised
  | completed
  deriving DecidableEq, Repr

/-- Outcome of one run: the terminal condition, whether the Clearing phase
(RPR_PreventUIRefresh(1), line 135) was ever entered, and the host-mutation
trace. -/
structure RunOutcome where
  terminal : RunTerminal
  enteredClearing : Bool
  actions : List RunAction
  deriving DecidableEq, Repr

/-- Net UI-refresh suspension depth left behind by a trace:
RPR_PreventUIRefresh(1) adds 1, RPR_PreventUIRefresh(-1) adds -1. -/
def uiDepth (acts : List RunAction) : ℤ :=
  (acts.map (fun a => match a with
    | RunAction.preventUIRefresh v => v
    | _ => 0)).sum

/-- Control-flow model of run() (PTKclasses.py, lines 14-204).  Parameters
abstract the host state it reads: `inp` is the userInputs result, `sameTrack`
says whether all selected items share one track (line 108), `nsigs` is the
existing marker count, `replActs` are the mutations produced by the
item.replicate calls, `nCreates` is the number of non-redundant sig times
materialized in the final loop (lines 190-191), and `failAt = some i` means
the (i+1)-th create() call raises ValueError (line 258).  Early returns
(lines 31-42, 108-110) happen before any mutation; RPR_PreventUIRefresh(1)
is called at line 135 and RPR_PreventUIRefresh(-1) only at line 201, with no
try/finally in between, so a raise inside the create loop exits with the
suspension still in place. -/
def runModel (inp : UserInput) (sameTrack : Bool) (nsigs : ℕ)
    (replActs : List RunAction) (nCreates : ℕ) (failAt : Option ℕ) :
    RunOutcome :=
  match inp with
  | UserInput.cancelled => ⟨RunTerminal.cancelled, false, []⟩
  | UserInput.badInput => ⟨RunTerminal.cancelled, false, []⟩
  | UserInput.values ndups nbetween =>
    if ndups < 0 then ⟨RunTerminal.cancelled, false, []⟩
    else if nbetween < 0 then ⟨RunTerminal.cancelled, false, []⟩
    else if !sameTrack then ⟨RunTerminal.cancelled, false, []⟩
    else
      let acts1 := [RunAction.preventUIRefresh 1] ++
        List.replicate nsigs RunAction.removeSig ++
        [RunAction.unselectAll] ++ replActs
      match failAt with
      | some i =>
        if i < nCreates then
          ⟨RunTerminal.raised, true, acts1 ++ List.replicate i RunAction.createSig⟩
        else
          ⟨RunTerminal.completed, true,
            acts1 ++ List.replicate nCreates RunAction.createSig ++
            [RunAction.preventUIRefresh (-1), RunAction.updateArrange]⟩
      | none =>
        ⟨RunTerminal.completed, true,
          acts1 ++ List.replicate nCreates RunAction.createSig ++
          [RunAction.preventUIRefresh (-1), RunAction.updateArrange]⟩

/-- Concrete marker at time 0, 100 bpm, 4/4. -/
def mkA : TempoTimeSigMarkerWrapper :=
  { timepos := 0, bpm := 100, timesig_num := 4, timesig_denom := 4, lineartempo := false }

/-- Concrete marker at time 2, 200 bpm, 3/4. -/
def mkB : TempoTimeSigMarkerWrapper :=
  { timepos := 2, bpm := 200, timesig_num := 3, timesig_denom := 4, lineartempo := false }

/-- Concrete clip timing input: item at position 0 of length 4 with one
second of intime, two tempo/time-signature markers inside the item (at
times 0 and 2). -/
def itemEx : MediaItemReplicator :=
  { pos := 0, length := 4, end_ := 4, posbeats := 2, poscml := 4, poscdenom := 4
    posbpm := 120, endbeats := 0, endcml := 4, endcdenom := 4, endbpm := 120
    intime := 1, outtime := 0, tempotimesiglist := [mkA, mkB] }

/-- Concrete clip timing input with an empty project marker list. -/
def itemNoSigs : MediaItemReplicator :=
  { pos := 0, length := 4, end_ := 4, posbeats := 0, poscml := 4, poscdenom := 4
    posbpm := 120, endbeats := 0, endcml := 4, endcdenom := 4, endbpm := 120
    intime := 0, outtime := 0, tempotimesiglist := [] }

/-- Concrete marker map lookup for the getNonRedundantSigTimes examples:
mkB at time 1, mkA everywhere else. -/
def lookupEx : ℚ → TempoTimeSigMarkerWrapper :=
  fun t => if t = 1 then mkB else mkA

/-! Helper lemmas about the dict model. -/

lemma any_key_eq_false (d : SigDict) (k : ℚ) (h : ∀ p ∈ d, p.1 ≠ k) :
    d.any (fun p => decide (p.1 = k)) = false := by
  simp only [List.any_eq_false, decide_eq_true_eq]
  exact h

lemma map_keep_of_forall_ne (d : SigDict) (k : ℚ) (v : TempoTimeSigMarkerWrapper)
    (h : ∀ p ∈ d, p.1 ≠ k) :
    d.map (fun p => if p.1 = k then (k, v) else p) = d := by
  induction d with
  | nil => rfl
  | cons p rest ih =>
    have hp : p.1 ≠ k := h p (List.mem_cons_self p rest)
    have hr : ∀ q ∈ rest, q.1 ≠ k := fun q hq => h q (List.mem_cons_of_mem p hq)
    simp [hp, ih hr]

lemma dictInsert_of_forall_ne (d : SigDict) (k : ℚ) (v : TempoTimeSigMarkerWrapper)
    (h : ∀ p ∈ d, p.1 ≠ k) :
    dictInsert d k v = d ++ [(k, v)] := by
  simp [dictInsert, any_key_eq_false d k h]

lemma dictInsert_dictInsert (d : SigDict) (k : ℚ)
    (v w : TempoTimeSigMarkerWrapper) :
    dictInsert (dictInsert d k v) k w = dictInsert d k w := by
  by_cases hk : d.any (fun p => decide (p.1 = k)) = true
  · have hmap : (d.map (fun p => if p.1 = k then (k, v) else p)).any
        (fun p => decide (p.1 = k)) = true := by
      simp only [List.any_eq_true, decide_eq_true_eq] at hk ⊢
      obtain ⟨p, hp, hpk⟩ := hk
      exact ⟨(k, v), List.mem_map.mpr ⟨p, hp, by simp [hpk]⟩, rfl⟩
    simp only [dictInsert, hk, if_true, hmap, List.map_map]
    apply List.map_congr_left
    intro p _
    by_cases h : p.1 = k <;> simp [Function.comp, h]
  · have hne : ∀ p ∈ d, p.1 ≠ k := by
      intro p hp hc
      simp only [List.any_eq_true, decide_eq_true_eq] at hk
      exact hk ⟨p, hp, hc⟩
    have happ : (d ++ [(k, v)]).any (fun p => decide (p.1 = k)) = true := by
      simp [List.any_append]
    simp only [dictInsert, hk, if_false, happ, if_true, List.map_append]
    simp [map_keep_of_forall_ne d k w hne]

lemma dictInsert_append_left (d₁ d₂ : SigDict) (k : ℚ)
    (v : TempoTimeSigMarkerWrapper) (h : ∀ p ∈ d₁, p.1 ≠ k) :
    dictInsert (d₁ ++ d₂) k v = d₁ ++ dictInsert d₂ k v := by
  have h₁ : d₁.any (fun p => decide (p.1 = k)) = false := any_key_eq_false d₁ k h
  have hmap : d₁.map (fun p => if p.1 = k then (k, v) else p) = d₁ :=
    map_keep_of_forall_ne d₁ k v h
  by_cases hk : d₂.any (fun p => decide (p.1 = k)) = true
  · have hall : (d₁ ++ d₂).any (fun p => decide (p.1 = k)) = true := by
      simp [List.any_append, hk]
    simp [dictInsert, hall, hk, List.map_append, hmap]
  · have h₂ : d₂.any (fun p => decide (p.1 = k)) = false := by
      revert hk
      cases d₂.any (fun p => decide (p.1 = k)) <;> simp
    have hall : (d₁ ++ d₂).any (fun p => decide (p.1 = k)) = false := by
      simp [List.any_append, h₁, h₂]
    simp [dictInsert, hall, h₂, List.append_assoc]

/-! Helper lemmas about cloning. -/

lemma cloneVal_timepos (s : TempoTimeSigMarkerWrapper) (tv : ℚ) :
    (s.cloneVal tv true).timepos = s.timepos + tv := rfl

lemma clone_eq_some (s : TempoTimeSigMarkerWrapper) (tv : ℚ)
    (h : 0 ≤ s.timepos + tv) :
    s.clone tv true = some (s.cloneVal tv true) := by
  simp [TempoTimeSigMarkerWrapper.clone, cloneVal_timepos, h]

lemma cloneItemSigs_eq_some (pos t : ℚ) (ht : 0 ≤ t) :
    ∀ (itemsigs : List TempoTimeSigMarkerWrapper) (d : SigDict),
      (∀ sig ∈ itemsigs, pos ≤ sig.timepos) →
      cloneItemSigs itemsigs pos t d = some (clonePlacement itemsigs pos t d) := by
  intro I
  induction I with
  | nil => intro d _; rfl
  | cons sig rest ih =>
    intro d hs
    have hpos : pos ≤ sig.timepos := hs sig (by simp)
    have hclone : sig.clone (t - pos) true = some (sig.cloneVal (t - pos) true) :=
      clone_eq_some sig (t - pos) (by linarith)
    have step : cloneItemSigs (sig :: rest) pos t d
        = cloneItemSigs rest pos t (dictInsert d t (sig.cloneVal (t - pos) true)) := by
      rw [cloneItemSigs, hclone]
    rw [step, ih (dictInsert d t (sig.cloneVal (t - pos) true))
      (fun s hs2 => hs s (List.mem_cons_of_mem sig hs2))]
    cases rest with
    | nil => rfl
    | cons r rs =>
      simp only [clonePlacement, List.getLast?_cons_cons]
      cases hcl : (r :: rs).getLast? with
      | none => simp at hcl
      | some sigL => simp [dictInsert_dictInsert]

/-! Helper lemmas about replicate. -/

lemma interiorSigs_pos_le (self : MediaItemReplicator) :
    ∀ sig ∈ self.interiorSigs, self.pos ≤ sig.timepos := by
  intro sig hsig
  have h := (List.mem_filter.mp hsig).2
  simp only [Bool.and_eq_true, decide_eq_true_eq] at h
  exact h.1

lemma dupLoop_succ (self : MediaItemReplicator)
    (itemsigs : List TempoTimeSigMarkerWrapper)
    (insig : TempoTimeSigMarkerWrapper) (b : ℚ) (n : ℕ) (t : ℚ)
    (d : SigDict) (acts : List HostAction) :
    dupLoop self itemsigs insig b (n + 1) t d acts =
      match cloneItemSigs itemsigs self.pos (t + b + self.intime)
          (dictInsert d t (leadMarker t insig)) with
      | none => .error acts
      | some d2 =>
        dupLoop self itemsigs insig b n
          (t + b + self.intime + self.length + self.outtime) d2
          (acts ++ [HostAction.applyNudge
            (self.length + self.outtime + b + self.intime)]) := rfl

lemma dupLoop_succ_some (self : MediaItemReplicator)
    (itemsigs : List TempoTimeSigMarkerWrapper)
    (insig : TempoTimeSigMarkerWrapper) (b : ℚ) (n : ℕ) (t : ℚ)
    (d : SigDict) (acts : List HostAction) (d2 : SigDict)
    (h : cloneItemSigs itemsigs self.pos (t + b + self.intime)
      (dictInsert d t (leadMarker t insig)) = some d2) :
    dupLoop self itemsigs insig b (n + 1) t d acts =
      dupLoop self itemsigs insig b n
        (t + b + self.intime + self.length + self.outtime) d2
        (acts ++ [HostAction.applyNudge
          (self.length + self.outtime + b + self.intime)]) := by
  rw [dupLoop_succ, h]

lemma dupLoop_time (self : MediaItemReplicator)
    (itemsigs : List TempoTimeSigMarkerWrapper)
    (insig : TempoTimeSigMarkerWrapper) (b : ℚ)
    (hd : 0 ≤ b + self.intime) (hL : 0 ≤ self.length + self.outtime)
    (hs : ∀ sig ∈ itemsigs, self.pos ≤ sig.timepos) :
    ∀ (n : ℕ) (t : ℚ) (d : SigDict) (acts : List HostAction), 0 ≤ t →
      ∃ d2 a2, dupLoop self itemsigs insig b n t d acts =
        .ok (t + n * (b + self.intime + self.length + self.outtime), d2, a2) := by
  intro n
  induction n with
  | zero => intro t d acts _; exact ⟨d, acts, by simp [dupLoop]⟩
  | succ n ih =>
    intro t d acts ht
    have ht1 : 0 ≤ t + b + self.intime := by linarith
    have hcl := cloneItemSigs_eq_some self.pos (t + b + self.intime) ht1 itemsigs
      (dictInsert d t (leadMarker t insig)) hs
    have ht2 : 0 ≤ t + b + self.intime + self.length + self.outtime := by linarith
    obtain ⟨d2, a2, hrec⟩ := ih (t + b + self.intime + self.length + self.outtime)
      (clonePlacement itemsigs self.pos (t + b + self.intime)
        (dictInsert d t (leadMarker t insig)))
      (acts ++ [HostAction.applyNudge
        (self.length + self.outtime + b + self.intime)]) ht2
    refine ⟨d2, a2, ?_⟩
    rw [dupLoop_succ_some self itemsigs insig b n t d acts _ hcl, hrec]
    simp only [Except.ok.injEq, Prod.mk.injEq, eq_self_iff_true, and_true, true_and]
    push_cast
    ring

lemma replicate_eq (self : MediaItemReplicator) (t0 : ℚ) (ndups nbetween : ℕ)
    (s0 : TempoTimeSigMarkerWrapper) (rest : List TempoTimeSigMarkerWrapper)
    (h : self.tempotimesiglist = s0 :: rest) :
    self.replicate t0 ndups nbetween =
      (match cloneItemSigs self.interiorSigs self.pos
          (t0 + self.betweenTime nbetween + self.intime)
          (dictInsert [] t0 (leadMarker t0 (pickInSig (s0 :: rest) self.pos s0))) with
      | none => .error ([HostAction.setMediaItemSelected true] ++
          (if self.pos < t0 + self.betweenTime nbetween + self.intime
           then [HostAction.setMediaItemPosition
             (t0 + self.betweenTime nbetween + self.intime)] else []))
      | some d1 =>
        match dupLoop self self.interiorSigs (pickInSig (s0 :: rest) self.pos s0)
            (self.betweenTime nbetween) ndups
            (t0 + self.betweenTime nbetween + self.intime + self.length + self.outtime)
            d1
            ([HostAction.setMediaItemSelected true] ++
             (if self.pos < t0 + self.betweenTime nbetween + self.intime
              then [HostAction.setMediaItemPosition
                (t0 + self.betweenTime nbetween + self.intime)] else [])) with
        | .error a => .error a
        | .ok (t, d, a) =>
          .ok (t, d, a ++ [HostAction.setMediaItemSelected false])) := by
  unfold MediaItemReplicator.replicate
  rw [h]

lemma betweenTime_nonneg (self : MediaItemReplicator) (nbetween : ℕ)
    (hbpm : 0 < self.posbpm) (hcml : 0 ≤ self.poscml) :
    0 ≤ self.betweenTime nbetween := by
  unfold MediaItemReplicator.betweenTime
  have h60 : (0:ℚ) ≤ 60 / self.posbpm := div_nonneg (by norm_num) (le_of_lt hbpm)
  exact mul_nonneg (mul_nonneg (Nat.cast_nonneg nbetween) hcml) h60

/-- Claim C2: for every clip timing input (with at least one project marker,
as replicate requires), every copies >= 0 and gapMeasures >= 0 and every
start cursor t0 >= 0, replicate returns final cursor
t0 + (copies + 1) * (gapTime + intime + length + outtime), where gapTime is
betweenTime, i.e. gapMeasures * poscml * (60 / posbpm). -/
theorem C2_replicate_final_cursor (self : MediaItemReplicator) (t0 : ℚ)
    (ndups nbetween : ℕ) (hne : self.tempotimesiglist ≠ [])
    (ht0 : 0 ≤ t0) (hbpm : 0 < self.posbpm) (hcml : 0 ≤ self.poscml)
    (hin : 0 ≤ self.intime) (hlen : 0 ≤ self.length) (hout : 0 ≤ self.outtime) :
    ∃ d acts, self.replicate t0 ndups nbetween =
      .ok (t0 + ((ndups : ℚ) + 1) *
        (self.betweenTime nbetween + self.intime + self.length + self.outtime),
        d, acts) := by
  obtain ⟨s0, rest, h⟩ := List.exists_cons_of_ne_nil hne
  have hb : 0 ≤ self.betweenTime nbetween := betweenTime_nonneg self nbetween hbpm hcml
  have ht1 : 0 ≤ t0 + self.betweenTime nbetween + self.intime := by linarith
  have hcl := cloneItemSigs_eq_some self.pos
    (t0 + self.betweenTime nbetween + self.intime) ht1 self.interiorSigs
    (dictInsert [] t0 (leadMarker t0 (pickInSig (s0 :: rest) self.pos s0)))
    (interiorSigs_pos_le self)
  have ht2 : 0 ≤ t0 + self.betweenTime nbetween + self.intime +
      self.length + self.outtime := by linarith
  obtain ⟨d2, a2, hdup⟩ := dupLoop_time self self.interiorSigs
    (pickInSig (s0 :: rest) self.pos s0) (self.betweenTime nbetween)
    (by linarith) (by linarith) (interiorSigs_pos_le self) ndups
    (t0 + self.betweenTime nbetween + self.intime + self.length + self.outtime)
    (clonePlacement self.interiorSigs self.pos
      (t0 + self.betweenTime nbetween + self.intime)
      (dictInsert [] t0 (leadMarker t0 (pickInSig (s0 :: rest) self.pos s0))))
    ([HostAction.setMediaItemSelected true] ++
     (if self.pos < t0 + self.betweenTime nbetween + self.intime
      then [HostAction.setMediaItemPosition
        (t0 + self.betweenTime nbetween + self.intime)] else [])) ht2
  refine ⟨d2, a2 ++ [HostAction.setMediaItemSelected false], ?_⟩
  simp only [replicate_eq self t0 ndups nbetween s0 rest h, hcl, hdup]
  simp only [Except.ok.injEq, Prod.mk.injEq, eq_self_iff_true, and_true, true_and]
  ring

/-- Witness for C2 at a concrete input: the example item, two copies, no gap
measures, cursor starting at 0. -/
theorem C2_replicate_final_cursor_witness :
    (itemEx.tempotimesiglist ≠ [] ∧ (0:ℚ) ≤ 0 ∧ 0 < itemEx.posbpm ∧
      0 ≤ itemEx.poscml ∧ 0 ≤ itemEx.intime ∧ 0 ≤ itemEx.length ∧
      0 ≤ itemEx.outtime) ∧
    ∃ d acts, itemEx.replicate 0 2 0 =
      .ok (0 + (((2:ℕ) : ℚ) + 1) *
        (itemEx.betweenTime 0 + itemEx.intime + itemEx.length + itemEx.outtime),
        d, acts) :=
  ⟨⟨by decide, by decide, by decide, by decide, by decide, by decide, by decide⟩,
    C2_replicate_final_cursor itemEx 0 2 0 (by decide) (by decide) (by decide)
      (by decide) (by decide) (by decide) (by decide)⟩

/-! Characterization of the dictionary built by replicate. -/

lemma clonePlacement_append_left (I : List TempoTimeSigMarkerWrapper)
    (pos t : ℚ) (d e : SigDict) (h : ∀ p ∈ d, p.1 ≠ t) :
    clonePlacement I pos t (d ++ e) = d ++ clonePlacement I pos t e := by
  unfold clonePlacement
  cases I.getLast? with
  | none => rfl
  | some s => exact dictInsert_append_left d e t _ h

lemma placementEntries_nil (pos : ℚ) (insig : TempoTimeSigMarkerWrapper)
    (dd t : ℚ) :
    placementEntries pos [] insig dd t = [(t, leadMarker t insig)] := rfl

lemma placementEntries_cons (pos : ℚ) (x : TempoTimeSigMarkerWrapper)
    (xs : List TempoTimeSigMarkerWrapper) (insig : TempoTimeSigMarkerWrapper)
    (dd t : ℚ) (hdd : dd ≠ 0) :
    placementEntries pos (x :: xs) insig dd t =
      [(t, leadMarker t insig),
       (t + dd, ((x :: xs).getLast (List.cons_ne_nil x xs)).cloneVal
         (t + dd - pos) true)] := by
  have hlast : (x :: xs).getLast? = some ((x :: xs).getLast (List.cons_ne_nil x xs)) :=
    List.getLast?_eq_getLast (x :: xs) (List.cons_ne_nil x xs)
  have hne : ∀ p ∈ [((t : ℚ), leadMarker t insig)], p.1 ≠ t + dd := by
    intro p hp
    simp only [List.mem_singleton] at hp
    subst hp
    intro hc
    simp only at hc
    exact hdd (by linarith)
  unfold placementEntries clonePlacement
  rw [hlast]
  exact dictInsert_of_forall_ne _ _ _ hne

lemma placementEntries_key_eq (pos : ℚ) (I : List TempoTimeSigMarkerWrapper)
    (insig : TempoTimeSigMarkerWrapper) (dd t : ℚ) (hdd : dd ≠ 0) :
    ∀ p ∈ placementEntries pos I insig dd t, p.1 = t ∨ p.1 = t + dd := by
  intro p hp
  cases I with
  | nil =>
    rw [placementEntries_nil] at hp
    simp only [List.mem_singleton] at hp
    subst hp
    exact Or.inl rfl
  | cons x xs =>
    rw [placementEntries_cons pos x xs insig dd t hdd] at hp
    simp only [List.mem_cons, List.not_mem_nil, or_false] at hp
    rcases hp with rfl | rfl
    · exact Or.inl rfl
    · exact Or.inr rfl

lemma placementEntries_length (pos : ℚ) (I : List TempoTimeSigMarkerWrapper)
    (insig : TempoTimeSigMarkerWrapper) (dd t : ℚ) (hdd : dd ≠ 0) :
    (placementEntries pos I insig dd t).length = 1 + min I.length 1 := by
  cases I with
  | nil => rw [placementEntries_nil]; rfl
  | cons x xs => rw [placementEntries_cons pos x xs insig dd t hdd]; simp

lemma placementsDict_key_lb (pe : ℚ → SigDict) (step : ℚ)
    (hpe : ∀ t p, p ∈ pe t → t ≤ p.1) (hstep : 0 ≤ step) :
    ∀ (n : ℕ) (t : ℚ) (p), p ∈ placementsDict pe step n t → t ≤ p.1 := by
  intro n
  induction n with
  | zero => intro t p hp; cases hp
  | succ n ih =>
    intro t p hp
    rw [placementsDict] at hp
    rcases List.mem_append.mp hp with hp | hp
    · exact hpe t p hp
    · have := ih (t + step) p hp
      linarith

lemma placementsDict_length (pos : ℚ) (I : List TempoTimeSigMarkerWrapper)
    (insig : TempoTimeSigMarkerWrapper) (dd step : ℚ) (hdd : dd ≠ 0) :
    ∀ (n : ℕ) (t : ℚ),
      (placementsDict (placementEntries pos I insig dd) step n t).length
        = n * (1 + min I.length 1) := by
  intro n
  induction n with
  | zero => intro t; simp [placementsDict]
  | succ n ih =>
    intro t
    rw [placementsDict, List.length_append,
      placementEntries_length pos I insig dd t hdd, ih]
    ring

lemma placementsDict_keys_nodup (pos : ℚ) (I : List TempoTimeSigMarkerWrapper)
    (insig : TempoTimeSigMarkerWrapper) (dd step : ℚ)
    (hdd : 0 < dd) (hds : dd < step) :
    ∀ (n : ℕ) (t : ℚ),
      ((placementsDict (placementEntries pos I insig dd) step n t).map
        Prod.fst).Nodup := by
  intro n
  induction n with
  | zero => intro t; simp [placementsDict]
  | succ n ih =>
    intro t
    rw [placementsDict, List.map_append, List.nodup_append]
    refine ⟨?_, ih (t + step), ?_⟩
    · cases I with
      | nil => rw [placementEntries_nil]; simp
      | cons x xs =>
        rw [placementEntries_cons pos x xs insig dd t (ne_of_gt hdd)]
        simp only [List.map_cons, List.map_nil]
        refine List.nodup_cons.mpr ⟨?_, List.nodup_singleton _⟩
        simp only [List.mem_singleton]
        intro hc
        linarith
    · intro a ha hb
      obtain ⟨p, hp, rfl⟩ := List.mem_map.mp ha
      obtain ⟨q, hq, hpq⟩ := List.mem_map.mp hb
      have h1 := placementEntries_key_eq pos I insig dd t (ne_of_gt hdd) p hp
      have h2 : t + step ≤ q.1 := by
        refine placementsDict_key_lb _ step ?_ (by linarith) n (t + step) q hq
        intro t' p' hp'
        rcases placementEntries_key_eq pos I insig dd t' (ne_of_gt hdd) p' hp'
          with h | h <;> rw [h] <;> linarith
      rw [hpq] at h2
      rcases h1 with h | h <;> rw [h] at h2 <;> linarith

lemma dupLoop_dict (self : MediaItemReplicator)
    (I : List TempoTimeSigMarkerWrapper) (insig : TempoTimeSigMarkerWrapper)
    (b : ℚ) (hdd : 0 < b + self.intime) (hL : 0 < self.length + self.outtime)
    (hs : ∀ sig ∈ I, self.pos ≤ sig.timepos) :
    ∀ (n : ℕ) (t : ℚ) (d : SigDict) (acts : List HostAction),
      0 ≤ t → (∀ p ∈ d, p.1 < t) →
      ∃ a2, dupLoop self I insig b n t d acts =
        .ok (t + n * (b + self.intime + self.length + self.outtime),
          d ++ placementsDict (placementEntries self.pos I insig (b + self.intime))
            (b + self.intime + self.length + self.outtime) n t, a2) := by
  intro n
  induction n with
  | zero =>
    intro t d acts _ _
    exact ⟨acts, by simp [dupLoop, placementsDict]⟩
  | succ n ih =>
    intro t d acts ht hkey
    have hfresh : ∀ p ∈ d, p.1 ≠ t := fun p hp => ne_of_lt (hkey p hp)
    have hins : dictInsert d t (leadMarker t insig) = d ++ [(t, leadMarker t insig)] :=
      dictInsert_of_forall_ne d t _ hfresh
    have ht1 : 0 ≤ t + b + self.intime := by linarith
    have hcl := cloneItemSigs_eq_some self.pos (t + b + self.intime) ht1 I
      (dictInsert d t (leadMarker t insig)) hs
    have hfresh1 : ∀ p ∈ d, p.1 ≠ t + b + self.intime := by
      intro p hp
      have := hkey p hp
      exact ne_of_lt (by linarith)
    have hsplit : clonePlacement I self.pos (t + b + self.intime)
        (d ++ [(t, leadMarker t insig)])
        = d ++ clonePlacement I self.pos (t + b + self.intime)
            [(t, leadMarker t insig)] :=
      clonePlacement_append_left I self.pos _ d _ hfresh1
    have hassoc : t + b + self.intime = t + (b + self.intime) := by ring
    have hpe : clonePlacement I self.pos (t + b + self.intime)
        [(t, leadMarker t insig)]
        = placementEntries self.pos I insig (b + self.intime) t := by
      unfold placementEntries
      rw [hassoc]
    have hd2keys : ∀ p ∈ d ++ placementEntries self.pos I insig (b + self.intime) t,
        p.1 < t + b + self.intime + self.length + self.outtime := by
      intro p hp
      rcases List.mem_append.mp hp with hp | hp
      · have := hkey p hp; linarith
      · rcases placementEntries_key_eq self.pos I insig (b + self.intime) t
          (ne_of_gt hdd) p hp with h | h <;> rw [h] <;> linarith
    have ht' : 0 ≤ t + b + self.intime + self.length + self.outtime := by linarith
    obtain ⟨a2, hrec⟩ := ih (t + b + self.intime + self.length + self.outtime)
      (d ++ placementEntries self.pos I insig (b + self.intime) t)
      (acts ++ [HostAction.applyNudge (self.length + self.outtime + b + self.intime)])
      ht' hd2keys
    refine ⟨a2, ?_⟩
    rw [dupLoop_succ_some self I insig b n t d acts _ hcl, hins, hsplit, hpe, hrec]
    have hc : t + b + self.intime + self.length + self.outtime
        = t + (b + self.intime + self.length + self.outtime) := by ring
    rw [hc]
    simp only [placementsDict, List.append_assoc, Except.ok.injEq, Prod.mk.injEq,
      eq_self_iff_true, and_true, true_and]
    push_cast
    ring

lemma placementEntries_mem_placementsDict (pe : ℚ → SigDict) (step : ℚ) :
    ∀ (n k : ℕ), k < n → ∀ (t : ℚ) (p : ℚ × TempoTimeSigMarkerWrapper),
      p ∈ pe (t + k * step) → p ∈ placementsDict pe step n t := by
  intro n
  induction n with
  | zero => intro k hk; exact absurd hk (Nat.not_lt_zero k)
  | succ n ih =>
    intro k hk t p hp
    rw [placementsDict]
    cases k with
    | zero =>
      apply List.mem_append_left
      have h0 : t + ((0:ℕ) : ℚ) * step = t := by push_cast; ring
      rwa [h0] at hp
    | succ k =>
      apply List.mem_append_right
      refine ih k (Nat.lt_of_succ_lt_succ hk) (t + step) p ?_
      have h1 : t + ((Nat.succ k : ℕ) : ℚ) * step = t + step + (k : ℚ) * step := by
        push_cast
        ring
      rwa [h1] at hp

lemma replicate_dict (self : MediaItemReplicator) (t0 : ℚ) (ndups nbetween : ℕ)
    (s0 : TempoTimeSigMarkerWrapper) (rest : List TempoTimeSigMarkerWrapper)
    (h : self.tempotimesiglist = s0 :: rest)
    (ht0 : 0 ≤ t0) (hdd : 0 < self.betweenTime nbetween + self.intime)
    (hL : 0 < self.length + self.outtime) :
    ∃ a2, self.replicate t0 ndups nbetween =
      .ok (t0 + ((ndups : ℚ) + 1) *
          (self.betweenTime nbetween + self.intime + self.length + self.outtime),
        placementsDict
          (placementEntries self.pos self.interiorSigs
            (pickInSig (s0 :: rest) self.pos s0)
            (self.betweenTime nbetween + self.intime))
          (self.betweenTime nbetween + self.intime + self.length + self.outtime)
          (ndups + 1) t0,
        a2) := by
  have ht1 : 0 ≤ t0 + self.betweenTime nbetween + self.intime := by linarith
  have hcl := cloneItemSigs_eq_some self.pos
    (t0 + self.betweenTime nbetween + self.intime) ht1 self.interiorSigs
    (dictInsert [] t0 (leadMarker t0 (pickInSig (s0 :: rest) self.pos s0)))
    (interiorSigs_pos_le self)
  have hd0 : dictInsert [] t0 (leadMarker t0 (pickInSig (s0 :: rest) self.pos s0))
      = [(t0, leadMarker t0 (pickInSig (s0 :: rest) self.pos s0))] := rfl
  have hassoc : t0 + self.betweenTime nbetween + self.intime
      = t0 + (self.betweenTime nbetween + self.intime) := by ring
  have hpe : clonePlacement self.interiorSigs self.pos
      (t0 + self.betweenTime nbetween + self.intime)
      [(t0, leadMarker t0 (pickInSig (s0 :: rest) self.pos s0))]
      = placementEntries self.pos self.interiorSigs
          (pickInSig (s0 :: rest) self.pos s0)
          (self.betweenTime nbetween + self.intime) t0 := by
    unfold placementEntries
    rw [hassoc]
  have hkeys : ∀ p ∈ placementEntries self.pos self.interiorSigs
      (pickInSig (s0 :: rest) self.pos s0)
      (self.betweenTime nbetween + self.intime) t0,
      p.1 < t0 + self.betweenTime nbetween + self.intime +
        self.length + self.outtime := by
    intro p hp
    rcases placementEntries_key_eq self.pos self.interiorSigs
      (pickInSig (s0 :: rest) self.pos s0)
      (self.betweenTime nbetween + self.intime) t0 (ne_of_gt hdd) p hp
      with hk | hk <;> rw [hk] <;> linarith
  obtain ⟨a2, hdup⟩ := dupLoop_dict self self.interiorSigs
    (pickInSig (s0 :: rest) self.pos s0) (self.betweenTime nbetween) hdd hL
    (interiorSigs_pos_le self) ndups
    (t0 + self.betweenTime nbetween + self.intime + self.length + self.outtime)
    (placementEntries self.pos self.interiorSigs
      (pickInSig (s0 :: rest) self.pos s0)
      (self.betweenTime nbetween + self.intime) t0)
    ([HostAction.setMediaItemSelected true] ++
     (if self.pos < t0 + self.betweenTime nbetween + self.intime
      then [HostAction.setMediaItemPosition
        (t0 + self.betweenTime nbetween + self.intime)] else []))
    (by linarith) hkeys
  refine ⟨a2 ++ [HostAction.setMediaItemSelected false], ?_⟩
  rw [hd0, hpe] at hcl
  simp only [replicate_eq self t0 ndups nbetween s0 rest h, hd0, hcl, hdup]
  have hc : t0 + self.betweenTime nbetween + self.intime +
      self.length + self.outtime
      = t0 + (self.betweenTime nbetween + self.intime +
          self.length + self.outtime) := by ring
  rw [hc]
  simp only [placementsDict, Except.ok.injEq, Prod.mk.injEq,
    eq_self_iff_true, and_true, true_and]
  push_cast
  ring

lemma itemEx_replicate_run :
    itemEx.replicate 0 0 0 =
      .ok (5, [(0, leadMarker 0 mkA), (1, mkB.cloneVal 1 true)],
        [HostAction.setMediaItemSelected true, HostAction.setMediaItemPosition 1,
         HostAction.setMediaItemSelected false]) := by
  norm_num [MediaItemReplicator.replicate, itemEx, MediaItemReplicator.interiorSigs,
    pickInSig, MediaItemReplicator.betweenTime, cloneItemSigs, dictInsert,
    TempoTimeSigMarkerWrapper.clone, TempoTimeSigMarkerWrapper.cloneVal,
    leadMarker, dupLoop, mkA, mkB, List.filter, List.foldl]

/-- Claim C1 counterexample: the example item has two interior markers, so
the claim predicts (0+1) + (0+1)*2 = 3 distinct keys for copies = 0, but the
replicate dict stores all interior-marker clones of one placement under the
same key t, yielding only the keys 0 and 1 (2 distinct keys). -/
theorem C1_counterexample :
    itemEx.interiorSigs.length = 2 ∧
    (itemEx.replicate 0 0 0).toOption.map (fun r => r.2.1.map Prod.fst)
      = some [0, 1] ∧
    ((0:ℕ) + 1) + ((0:ℕ) + 1) * 2 ≠ 2 := by
  refine ⟨?_, ?_, by norm_num⟩
  · norm_num [MediaItemReplicator.interiorSigs, itemEx, mkA, mkB, List.filter]
  · rw [itemEx_replicate_run]
    rfl

/-- Claim C1 amended: the marker map has (copies + 1) * (1 + min |I| 1)
distinct keys - one lead-in key per placement, plus one shared clone key per
placement when at least one interior marker exists (all clones of a
placement are recorded under the same key, so several interior markers do
not add several keys).  Hypotheses: a marker list as replicate requires, a
nonneg start cursor, and positive lead-in and item spans so distinct
placements use distinct keys. -/
theorem C1_amended_key_count (self : MediaItemReplicator) (t0 : ℚ)
    (ndups nbetween : ℕ) (hne : self.tempotimesiglist ≠ [])
    (ht0 : 0 ≤ t0) (hdd : 0 < self.betweenTime nbetween + self.intime)
    (hL : 0 < self.length + self.outtime) :
    ∃ t1 d acts, self.replicate t0 ndups nbetween = .ok (t1, d, acts) ∧
      (d.map Prod.fst).Nodup ∧
      d.length = (ndups + 1) * (1 + min self.interiorSigs.length 1) := by
  obtain ⟨s0, rest, h⟩ := List.exists_cons_of_ne_nil hne
  obtain ⟨a2, hrep⟩ := replicate_dict self t0 ndups nbetween s0 rest h ht0 hdd hL
  refine ⟨_, _, _, hrep, ?_, ?_⟩
  · exact placementsDict_keys_nodup self.pos self.interiorSigs
      (pickInSig (s0 :: rest) self.pos s0)
      (self.betweenTime nbetween + self.intime)
      (self.betweenTime nbetween + self.intime + self.length + self.outtime)
      hdd (by linarith) (ndups + 1) t0
  · exact placementsDict_length self.pos self.interiorSigs
      (pickInSig (s0 :: rest) self.pos s0)
      (self.betweenTime nbetween + self.intime)
      (self.betweenTime nbetween + self.intime + self.length + self.outtime)
      (ne_of_gt hdd) (ndups + 1) t0

/-- Witness for the amended C1 at a concrete input: the example item with
two interior markers, two copies. -/
theorem C1_amended_key_count_witness :
    (itemEx.tempotimesiglist ≠ [] ∧ (0:ℚ) ≤ 0 ∧
      0 < itemEx.betweenTime 0 + itemEx.intime ∧
      0 < itemEx.length + itemEx.outtime) ∧
    ∃ t1 d acts, itemEx.replicate 0 2 0 = .ok (t1, d, acts) ∧
      (d.map Prod.fst).Nodup ∧
      d.length = (2 + 1) * (1 + min itemEx.interiorSigs.length 1) :=
  ⟨⟨by decide, by decide,
      by norm_num [MediaItemReplicator.betweenTime, itemEx],
      by norm_num [itemEx]⟩,
    C1_amended_key_count itemEx 0 2 0 (by decide) (by decide)
      (by norm_num [MediaItemReplicator.betweenTime, itemEx])
      (by norm_num [itemEx])⟩

/-- Claim C3 counterexample: the clone of the interior marker mkB (original
time 2, clip start 0, clip moved to 1) is recorded under key 1 - the clip
copy's start time - while the clone's own new absolute position is 3; no
entry is recorded under key 3. -/
theorem C3_counterexample :
    (itemEx.replicate 0 0 0).toOption.map (fun r => r.2.1)
      = some [(0, leadMarker 0 mkA), (1, mkB.cloneVal 1 true)] ∧
    (mkB.cloneVal 1 true).timepos = 3 ∧
    (itemEx.replicate 0 0 0).toOption.map
      (fun r => decide ((3:ℚ) ∈ r.2.1.map Prod.fst)) = some false := by
  rw [itemEx_replicate_run]
  exact ⟨rfl, by norm_num [TempoTimeSigMarkerWrapper.cloneVal, mkB], rfl⟩

/-- Claim C3 amended: each placement's interior-marker clones are recorded
under the key t, the clip copy's new start time (the last clone
overwriting the others), not under the clone's new absolute position; the
surviving clone's stored time position equals the original marker's time
plus the shift (t - clip position), i.e. its original offset into the clip
plus the copy's start. -/
theorem C3_amended_clone_keys (self : MediaItemReplicator) (t0 : ℚ)
    (ndups nbetween : ℕ) (hne : self.tempotimesiglist ≠ [])
    (hI : self.interiorSigs ≠ [])
    (ht0 : 0 ≤ t0) (hdd : 0 < self.betweenTime nbetween + self.intime)
    (hL : 0 < self.length + self.outtime) :
    ∃ t1 d acts sigL, self.replicate t0 ndups nbetween = .ok (t1, d, acts) ∧
      self.interiorSigs.getLast? = some sigL ∧
      ∀ k : ℕ, k ≤ ndups →
        (t0 + (k : ℚ) * (self.betweenTime nbetween + self.intime +
            self.length + self.outtime) +
            (self.betweenTime nbetween + self.intime),
          sigL.cloneVal
            (t0 + (k : ℚ) * (self.betweenTime nbetween + self.intime +
              self.length + self.outtime) +
              (self.betweenTime nbetween + self.intime) - self.pos) true) ∈ d ∧
        (sigL.cloneVal
            (t0 + (k : ℚ) * (self.betweenTime nbetween + self.intime +
              self.length + self.outtime) +
              (self.betweenTime nbetween + self.intime) - self.pos)
            true).timepos
          = sigL.timepos +
            (t0 + (k : ℚ) * (self.betweenTime nbetween + self.intime +
              self.length + self.outtime) +
              (self.betweenTime nbetween + self.intime) - self.pos) := by
  obtain ⟨s0, rest, h⟩ := List.exists_cons_of_ne_nil hne
  obtain ⟨x, xs, hIs⟩ := List.exists_cons_of_ne_nil hI
  obtain ⟨a2, hrep⟩ := replicate_dict self t0 ndups nbetween s0 rest h ht0 hdd hL
  refine ⟨_, _, _, (x :: xs).getLast (List.cons_ne_nil x xs), hrep, ?_, ?_⟩
  · rw [hIs]
    exact List.getLast?_eq_getLast _ _
  · intro k hk
    refine ⟨?_, cloneVal_timepos _ _⟩
    apply placementEntries_mem_placementsDict _ _ (ndups + 1) k
      (Nat.lt_succ_of_le hk) t0
    rw [hIs]
    rw [placementEntries_cons self.pos x xs
      (pickInSig (s0 :: rest) self.pos s0)
      (self.betweenTime nbetween + self.intime)
      (t0 + (k : ℚ) * (self.betweenTime nbetween + self.intime +
        self.length + self.outtime)) (ne_of_gt hdd)]
    exact List.mem_cons_of_mem _ (List.mem_singleton.mpr rfl)

/-- Witness for the amended C3 at a concrete input: the example item, no
copies, no gap measures, cursor 0. -/
theorem C3_amended_clone_keys_witness :
    (itemEx.tempotimesiglist ≠ [] ∧ itemEx.interiorSigs ≠ [] ∧ (0:ℚ) ≤ 0 ∧
      0 < itemEx.betweenTime 0 + itemEx.intime ∧
      0 < itemEx.length + itemEx.outtime) ∧
    ∃ t1 d acts sigL, itemEx.replicate 0 0 0 = .ok (t1, d, acts) ∧
      itemEx.interiorSigs.getLast? = some sigL ∧
      ∀ k : ℕ, k ≤ 0 →
        ((0:ℚ) + (k : ℚ) * (itemEx.betweenTime 0 + itemEx.intime +
            itemEx.length + itemEx.outtime) +
            (itemEx.betweenTime 0 + itemEx.intime),
          sigL.cloneVal
            ((0:ℚ) + (k : ℚ) * (itemEx.betweenTime 0 + itemEx.intime +
              itemEx.length + itemEx.outtime) +
              (itemEx.betweenTime 0 + itemEx.intime) - itemEx.pos) true) ∈ d ∧
        (sigL.cloneVal
            ((0:ℚ) + (k : ℚ) * (itemEx.betweenTime 0 + itemEx.intime +
              itemEx.length + itemEx.outtime) +
              (itemEx.betweenTime 0 + itemEx.intime) - itemEx.pos)
            true).timepos
          = sigL.timepos +
            ((0:ℚ) + (k : ℚ) * (itemEx.betweenTime 0 + itemEx.intime +
              itemEx.length + itemEx.outtime) +
              (itemEx.betweenTime 0 + itemEx.intime) - itemEx.pos) :=
  ⟨⟨by decide,
      by norm_num [MediaItemReplicator.interiorSigs, itemEx, mkA, mkB, List.filter,
        List.cons_ne_nil],
      by decide,
      by norm_num [MediaItemReplicator.betweenTime, itemEx],
      by norm_num [itemEx]⟩,
    C3_amended_clone_keys itemEx 0 0 0 (by decide)
      (by norm_num [MediaItemReplicator.interiorSigs, itemEx, mkA, mkB, List.filter,
        List.cons_ne_nil])
      (by decide)
      (by norm_num [MediaItemReplicator.betweenTime, itemEx])
      (by norm_num [itemEx])⟩

/-- Claim C10: replicate constructed with an empty tempo/time-signature
marker list fails (the IndexError raised at tempotimesiglist[0], the
fallback selection of the earliest marker) before any host mutation is
performed: the error carries an empty action trace. -/
theorem C10_empty_siglist_error (self : MediaItemReplicator) (t0 : ℚ)
    (ndups nbetween : ℕ) (h : self.tempotimesiglist = []) :
    self.replicate t0 ndups nbetween = .error [] := by
  unfold MediaItemReplicator.replicate
  rw [h]

/-- Witness for C10 at a concrete input: the example item with an empty
marker list. -/
theorem C10_empty_siglist_error_witness :
    itemNoSigs.tempotimesiglist = [] ∧
    itemNoSigs.replicate 0 1 1 = .error [] :=
  ⟨rfl, C10_empty_siglist_error itemNoSigs 0 1 1 rfl⟩

/-- Claim C8: a negative duplicate count makes run() return during input
validation: terminal state Cancelled, Clearing never entered, no host
mutation of any kind (the action trace is empty). -/
theorem C8_negative_ndups_cancelled (ndups nbetween : ℤ) (sameTrack : Bool)
    (nsigs : ℕ) (replActs : List RunAction) (nCreates : ℕ)
    (failAt : Option ℕ) (h : ndups < 0) :
    runModel (UserInput.values ndups nbetween) sameTrack nsigs replActs
      nCreates failAt = ⟨RunTerminal.cancelled, false, []⟩ := by
  simp [runModel, h]

/-- Witness for C8 at duplicate count -1. -/
theorem C8_negative_ndups_cancelled_witness :
    (-1 : ℤ) < 0 ∧
    runModel (UserInput.values (-1) 1) true 2 [] 3 none
      = ⟨RunTerminal.cancelled, false, []⟩ :=
  ⟨by decide, C8_negative_ndups_cancelled (-1) 1 true 2 [] 3 none (by decide)⟩

/-- Claim C4 evidence: run() has no try/finally, so on the execution in
which the second marker create() call raises, the run terminates by an
uncaught exception after entering Clearing, leaving the UI refresh
suspension unbalanced (net depth 1, not 0) - the code violates the
mandatory suspend/resume pairing the spec requires on error paths. -/
theorem C4_unbalanced_ui_on_create_failure :
    (runModel (UserInput.values 1 1) true 2 [] 3 (some 1)).enteredClearing
      = true ∧
    (runModel (UserInput.values 1 1) true 2 [] 3 (some 1)).terminal
      = RunTerminal.raised ∧
    uiDepth (runModel (UserInput.values 1 1) true 2 [] 3 (some 1)).actions
      = 1 := by decide

/-- Claim C6: the end-of-measure nudge in the ClipTimingInfo construction
fires iff the end lands less than 0.001 beats into its measure; when it
fires, the end becomes exactly original end - 0.001, applied once and never
iterated (the stored end is original end - 0.001 regardless of where the
recomputed end lands), and the end-of-measure quantities are recomputed at
the nudged end. -/
theorem C6_end_nudge (timeToBeats : ℚ → BeatInfo) (bpmAt : ℚ → ℚ)
    (pos length0 : ℚ) (sl : List TempoTimeSigMarkerWrapper) :
    ((mkMediaItemReplicator timeToBeats bpmAt pos length0 sl).end_
        ≠ pos + length0
      ↔ (timeToBeats (pos + length0)).beats < 1/1000) ∧
    ((timeToBeats (pos + length0)).beats < 1/1000 →
      (mkMediaItemReplicator timeToBeats bpmAt pos length0 sl).end_
        = pos + length0 - 1/1000) ∧
    (mkMediaItemReplicator timeToBeats bpmAt pos length0 sl).endbeats
      = (timeToBeats
          (mkMediaItemReplicator timeToBeats bpmAt pos length0 sl).end_).beats := by
  simp only [mkMediaItemReplicator]
  split_ifs with h
  · refine ⟨?_, fun _ => by ring, rfl⟩
    constructor
    · intro _; exact h
    · intro _ hc
      have : (1:ℚ)/1000 = 0 := by linarith
      norm_num at this
  · refine ⟨?_, fun hc => absurd hc h, rfl⟩
    constructor
    · intro hc; exact absurd rfl hc
    · intro hc; exact absurd hc h

/-! Lemmas about the lead-in marker selection. -/

lemma pickInSig_eq (pos : ℚ) :
    ∀ (l : List TempoTimeSigMarkerWrapper) (init : TempoTimeSigMarkerWrapper),
      pickInSig l pos init =
        ((l.filter (fun s => decide (s.timepos ≤ pos + 1/1000))).getLast?).getD
          init := by
  intro l
  induction l using List.reverseRecOn with
  | nil => intro init; rfl
  | append_singleton l x ih =>
    intro init
    unfold pickInSig at ih ⊢
    rw [List.foldl_append, List.foldl_cons, List.foldl_nil, List.filter_append]
    by_cases hx : x.timepos ≤ pos + 1/1000
    · rw [if_pos hx]
      have hfx : List.filter (fun s => decide (s.timepos ≤ pos + 1/1000)) [x]
          = [x] := by
        rw [List.filter_cons, if_pos (by simpa using hx), List.filter_nil]
      rw [hfx, List.getLast?_append]
      simp
    · rw [if_neg hx]
      have hfx : List.filter (fun s => decide (s.timepos ≤ pos + 1/1000)) [x]
          = [] := by
        rw [List.filter_cons, if_neg (by simpa using hx), List.filter_nil]
      rw [hfx, List.append_nil]
      exact ih init

lemma sorted_timepos_le_getLast (f : List TempoTimeSigMarkerWrapper)
    (hf : f.Pairwise (fun a b => a.timepos ≤ b.timepos)) (h : f ≠ []) :
    ∀ x ∈ f, x.timepos ≤ (f.getLast h).timepos := by
  intro x hx
  rw [← List.dropLast_append_getLast h] at hf hx
  rw [List.pairwise_append] at hf
  rcases List.mem_append.mp hx with hx | hx
  · exact hf.2.2 x hx _ (List.mem_singleton_self _)
  · rw [List.mem_singleton] at hx
    rw [hx]

/-- Claim C7: for a non-empty project marker list sorted ascending by time
(whose head the code takes as the initial candidate), the selected lead-in
marker is the latest marker with timepos <= clip position + 0.001 (it
belongs to that set and dominates it in timepos); if no marker qualifies,
the earliest marker (the head) is selected. -/
theorem C7_lead_in_selection (l : List TempoTimeSigMarkerWrapper) (pos : ℚ)
    (s0 : TempoTimeSigMarkerWrapper) (hhead : l.head? = some s0)
    (hsorted : l.Pairwise (fun a b => a.timepos ≤ b.timepos)) :
    ((l.filter (fun s => decide (s.timepos ≤ pos + 1/1000)) = []) →
        pickInSig l pos s0 = s0 ∧ ∀ x ∈ l, s0.timepos ≤ x.timepos) ∧
    (∀ hf : l.filter (fun s => decide (s.timepos ≤ pos + 1/1000)) ≠ [],
        pickInSig l pos s0
            ∈ l.filter (fun s => decide (s.timepos ≤ pos + 1/1000)) ∧
          ∀ x ∈ l.filter (fun s => decide (s.timepos ≤ pos + 1/1000)),
            x.timepos ≤ (pickInSig l pos s0).timepos) := by
  have hearliest : ∀ x ∈ l, s0.timepos ≤ x.timepos := by
    cases l with
    | nil => simp at hhead
    | cons h t =>
      simp only [List.head?_cons, Option.some.injEq] at hhead
      subst hhead
      intro x hx
      rcases List.mem_cons.mp hx with rfl | hx
      · exact le_refl _
      · exact (List.pairwise_cons.mp hsorted).1 x hx
  constructor
  · intro hempty
    rw [pickInSig_eq pos l s0, hempty]
    exact ⟨rfl, hearliest⟩
  · intro hf
    rw [pickInSig_eq pos l s0,
      List.getLast?_eq_getLast _ hf, Option.getD_some]
    refine ⟨List.getLast_mem hf, ?_⟩
    exact sorted_timepos_le_getLast _
      (hsorted.sublist (List.filter_sublist l)) hf

/-- Witness for C7 at a concrete input: markers at times 0 and 2, clip
position 0 (only the first marker qualifies). -/
theorem C7_lead_in_selection_witness :
    ([mkA, mkB].head? = some mkA ∧
      ([mkA, mkB] : List TempoTimeSigMarkerWrapper).Pairwise
        (fun a b => a.timepos ≤ b.timepos)) ∧
    ((([mkA, mkB] : List TempoTimeSigMarkerWrapper).filter
        (fun s => decide (s.timepos ≤ (0:ℚ) + 1/1000)) = []) →
        pickInSig [mkA, mkB] 0 mkA = mkA ∧
          ∀ x ∈ [mkA, mkB], mkA.timepos ≤ x.timepos) ∧
    (∀ hf : ([mkA, mkB] : List TempoTimeSigMarkerWrapper).filter
        (fun s => decide (s.timepos ≤ (0:ℚ) + 1/1000)) ≠ [],
        pickInSig [mkA, mkB] 0 mkA
            ∈ ([mkA, mkB] : List TempoTimeSigMarkerWrapper).filter
              (fun s => decide (s.timepos ≤ (0:ℚ) + 1/1000)) ∧
          ∀ x ∈ ([mkA, mkB] : List TempoTimeSigMarkerWrapper).filter
              (fun s => decide (s.timepos ≤ (0:ℚ) + 1/1000)),
            x.timepos ≤ (pickInSig [mkA, mkB] 0 mkA).timepos) :=
  ⟨⟨rfl, by
      refine List.pairwise_cons.mpr ⟨?_, List.pairwise_singleton _ _⟩
      intro x hx
      rw [List.mem_singleton] at hx
      rw [hx]
      norm_num [mkA, mkB]⟩,
    C7_lead_in_selection [mkA, mkB] 0 mkA rfl (by
      refine List.pairwise_cons.mpr ⟨?_, List.pairwise_singleton _ _⟩
      intro x hx
      rw [List.mem_singleton] at hx
      rw [hx]
      norm_num [mkA, mkB])⟩

/-! Lemmas about getNonRedundantSigTimes. -/

lemma equivalentSigs_iff (a b : TempoTimeSigMarkerWrapper) :
    equivalentSigs a b = true ↔ sigClass a = sigClass b := by
  simp [equivalentSigs, sigClass, Prod.ext_iff, and_assoc]

lemma nrScan_cons_cons (sigd : ℚ → TempoTimeSigMarkerWrapper) (t t2 : ℚ)
    (rest : List ℚ) :
    nrScan sigd (t :: t2 :: rest) =
      nrScan sigd (t2 :: rest) ++
        (if equivalentSigs (sigd t2) (sigd t) then [] else [t]) := rfl

lemma nrScan_subset_dropLast (sigd : ℚ → TempoTimeSigMarkerWrapper) :
    ∀ (D : List ℚ), ∀ x ∈ nrScan sigd D, x ∈ D.dropLast := by
  intro D
  induction D with
  | nil => intro x hx; cases hx
  | cons t rest ih =>
    cases rest with
    | nil => intro x hx; cases hx
    | cons t2 rs =>
      intro x hx
      rw [nrScan_cons_cons] at hx
      have hdl : (t :: t2 :: rs).dropLast = t :: (t2 :: rs).dropLast := rfl
      rw [hdl]
      rcases List.mem_append.mp hx with hx | hx
      · exact List.mem_cons_of_mem t (ih x hx)
      · by_cases heq : equivalentSigs (sigd t2) (sigd t) = true
        · rw [if_pos heq] at hx; cases hx
        · rw [if_neg heq] at hx
          rw [List.mem_singleton] at hx
          rw [hx]
          exact List.mem_cons_self t _

lemma nrScan_length (sigd : ℚ → TempoTimeSigMarkerWrapper) :
    ∀ (rest : List ℚ) (t : ℚ),
      (nrScan sigd (t :: rest)).length + 1 ≤ (t :: rest).length := by
  intro rest
  induction rest with
  | nil => intro t; simp [nrScan]
  | cons t2 rs ih =>
    intro t
    rw [nrScan_cons_cons, List.length_append]
    have h1 := ih t2
    have h2 : (if equivalentSigs (sigd t2) (sigd t) then ([] : List ℚ)
        else [t]).length ≤ 1 := by
      by_cases heq : equivalentSigs (sigd t2) (sigd t) = true
      · rw [if_pos heq]; simp
      · rw [if_neg heq]; simp
    simp only [List.length_cons] at h1 ⊢
    omega

lemma nrScan_pairwise_lt (sigd : ℚ → TempoTimeSigMarkerWrapper) :
    ∀ (D : List ℚ), D.Pairwise (fun a b => b < a) →
      (nrScan sigd D).Pairwise (fun a b => a < b) := by
  intro D
  induction D with
  | nil => intro _; exact List.Pairwise.nil
  | cons t rest ih =>
    cases rest with
    | nil => intro _; exact List.Pairwise.nil
    | cons t2 rs =>
      intro hp
      rw [nrScan_cons_cons]
      rw [List.pairwise_append]
      refine ⟨ih (List.pairwise_cons.mp hp).2, ?_, ?_⟩
      · by_cases heq : equivalentSigs (sigd t2) (sigd t) = true
        · rw [if_pos heq]; exact List.Pairwise.nil
        · rw [if_neg heq]; exact List.pairwise_singleton _ _
      · intro a ha b hb
        have ha2 : a ∈ (t2 :: rs).dropLast := nrScan_subset_dropLast sigd _ a ha
        have ha3 : a ∈ t2 :: rs := (List.dropLast_sublist (t2 :: rs)).subset ha2
        have hat : a < t := (List.pairwise_cons.mp hp).1 a ha3
        by_cases heq : equivalentSigs (sigd t2) (sigd t) = true
        · rw [if_pos heq] at hb; cases hb
        · rw [if_neg heq] at hb
          rw [List.mem_singleton] at hb
          rw [hb]
          exact hat

lemma nrScan_chain (sigd : ℚ → TempoTimeSigMarkerWrapper) :
    ∀ (rest : List ℚ) (h : ℚ),
      List.Chain' (fun a b => sigClass (sigd a) ≠ sigClass (sigd b))
        (nrScan sigd (h :: rest)) ∧
      (∀ k, (nrScan sigd (h :: rest)).getLast? = some k →
        sigClass (sigd k) = sigClass (sigd h)) := by
  intro rest
  induction rest with
  | nil =>
    intro h
    refine ⟨List.chain'_nil, ?_⟩
    intro k hk
    simp [nrScan] at hk
  | cons t2 rs ih =>
    intro h
    obtain ⟨ihc, ihl⟩ := ih t2
    rw [nrScan_cons_cons]
    by_cases heq : equivalentSigs (sigd t2) (sigd h) = true
    · rw [if_pos heq, List.append_nil]
      refine ⟨ihc, ?_⟩
      intro k hk
      rw [ihl k hk]
      exact (equivalentSigs_iff _ _).mp heq
    · rw [if_neg heq]
      constructor
      · rw [List.chain'_append]
        refine ⟨ihc, List.chain'_singleton _, ?_⟩
        intro x hx y hy
        have hy2 : y = h := by
          simp only [List.head?_cons, Option.mem_def, Option.some.injEq] at hy
          exact hy.symm
        rw [hy2]
        have hx2 := ihl x (Option.mem_def.mp hx)
        rw [hx2]
        intro hc
        exact heq ((equivalentSigs_iff _ _).mpr hc)
      · intro k hk
        rw [List.getLast?_append] at hk
        have h1 : ([h] : List ℚ).getLast? = some h := rfl
        rw [h1] at hk
        simp only [Option.or, Option.some.injEq] at hk
        rw [← hk]

lemma nrScan_of_chain (sigd : ℚ → TempoTimeSigMarkerWrapper) :
    ∀ (E : List ℚ),
      List.Chain' (fun a b => sigClass (sigd a) ≠ sigClass (sigd b)) E →
      nrScan sigd E = E.dropLast.reverse := by
  intro E
  induction E with
  | nil => intro _; rfl
  | cons e rest ih =>
    cases rest with
    | nil => intro _; rfl
    | cons e2 rs =>
      intro hch
      obtain ⟨h12, htail⟩ := List.chain'_cons.mp hch
      rw [nrScan_cons_cons, ih htail]
      have heq : ¬ equivalentSigs (sigd e2) (sigd e) = true := by
        intro hc
        exact h12 ((equivalentSigs_iff _ _).mp hc).symm
      rw [if_neg heq]
      have hdl : (e :: e2 :: rs).dropLast = e :: (e2 :: rs).dropLast := rfl
      rw [hdl, List.reverse_cons]

lemma sortDesc_perm (l : List ℚ) : (sortDesc l).Perm l :=
  List.perm_insertionSort _ l

lemma sortDesc_sorted (l : List ℚ) :
    (sortDesc l).Pairwise (fun a b : ℚ => b ≤ a) :=
  List.sorted_insertionSort _ l

lemma sortDesc_strict (l : List ℚ) (h : l.Nodup) :
    (sortDesc l).Pairwise (fun a b : ℚ => b < a) := by
  have hnd : (sortDesc l).Nodup := (sortDesc_perm l).nodup_iff.mpr h
  have hs := sortDesc_sorted l
  exact (hs.and hnd).imp (fun hab => lt_of_le_of_ne hab.1 (Ne.symm hab.2))

lemma sortDesc_eq_of_sorted (m : List ℚ)
    (hm : m.Pairwise (fun a b : ℚ => b ≤ a)) : sortDesc m = m :=
  List.eq_of_perm_of_sorted (sortDesc_perm m) (sortDesc_sorted m) hm

/-- Claim C5 counterexample: for the two-key map with distinct sigs at times
0 and 1, getNonRedundantSigTimes keeps only the key 1; restricted to that
key the map has a single entry, over which the scan keeps nothing, so the
second application loses the key 1 - the function is not idempotent. -/
theorem C5_counterexample :
    (1 : ℚ) ∈ getNonRedundantSigTimes [0, 1] lookupEx ∧
    (1 : ℚ) ∉ getNonRedundantSigTimes
      (getNonRedundantSigTimes [0, 1] lookupEx) lookupEx := by decide

/-- Claim C5 amended: restricting the map to the kept keys and re-applying
getNonRedundantSigTimes does not reproduce the kept keys; it yields exactly
the kept keys minus the earliest one (the scan never examines the earliest
key of its input).  Equivalently, the second application equals the tail of
the first application's (ascending) result. -/
theorem C5_amended_second_application (keys : List ℚ)
    (sigd : ℚ → TempoTimeSigMarkerWrapper) (hnd : keys.Nodup) :
    getNonRedundantSigTimes (getNonRedundantSigTimes keys sigd) sigd
      = (getNonRedundantSigTimes keys sigd).tail := by
  unfold getNonRedundantSigTimes
  have hKlt : (nrScan sigd (sortDesc keys)).Pairwise (fun a b => a < b) :=
    nrScan_pairwise_lt sigd (sortDesc keys) (sortDesc_strict keys hnd)
  have hKch : List.Chain' (fun a b => sigClass (sigd a) ≠ sigClass (sigd b))
      (nrScan sigd (sortDesc keys)) := by
    cases hD : sortDesc keys with
    | nil => exact List.chain'_nil
    | cons h rest => exact (nrScan_chain sigd rest h).1
  have hrevsorted : (nrScan sigd (sortDesc keys)).reverse.Pairwise
      (fun a b : ℚ => b ≤ a) := by
    rw [List.pairwise_reverse]
    exact hKlt.imp (fun hab => le_of_lt hab)
  have hKrev : sortDesc (nrScan sigd (sortDesc keys))
      = (nrScan sigd (sortDesc keys)).reverse :=
    List.eq_of_perm_of_sorted
      ((sortDesc_perm _).trans (List.reverse_perm _).symm)
      (sortDesc_sorted _) hrevsorted
  rw [hKrev]
  have hchrev : List.Chain' (fun a b => sigClass (sigd a) ≠ sigClass (sigd b))
      (nrScan sigd (sortDesc keys)).reverse := by
    rw [List.chain'_reverse]
    exact hKch.imp (fun a b hab => Ne.symm hab)
  rw [nrScan_of_chain sigd _ hchrev]
  rw [List.dropLast_reverse, List.reverse_reverse]

/-- Witness for the amended C5 at a concrete input: the two-key map with
distinct sigs. -/
theorem C5_amended_second_application_witness :
    ([(0:ℚ), 1] : List ℚ).Nodup ∧
    getNonRedundantSigTimes (getNonRedundantSigTimes [0, 1] lookupEx) lookupEx
      = (getNonRedundantSigTimes [0, 1] lookupEx).tail :=
  ⟨by decide, C5_amended_second_application [0, 1] lookupEx (by decide)⟩

/-- Claim C9: getNonRedundantSigTimes never keeps the smallest time key of a
non-empty map - the scan walks sigtimes_r[0:-1], so the earliest marker is
never examined and never materialized - and the kept list has at most
(number of keys - 1) entries. -/
theorem C9_min_key_never_kept (keys : List ℚ)
    (sigd : ℚ → TempoTimeSigMarkerWrapper) (hne : keys ≠ [])
    (hnd : keys.Nodup) (m : ℚ) (hm : m ∈ keys)
    (hmin : ∀ x ∈ keys, m ≤ x) :
    m ∉ getNonRedundantSigTimes keys sigd ∧
    (getNonRedundantSigTimes keys sigd).length + 1 ≤ keys.length := by
  unfold getNonRedundantSigTimes
  have hperm := sortDesc_perm keys
  have hDne : sortDesc keys ≠ [] := by
    intro hc
    rw [hc] at hperm
    exact hne (hperm.symm.eq_nil)
  constructor
  · intro hmem
    have hdl : m ∈ (sortDesc keys).dropLast :=
      nrScan_subset_dropLast sigd (sortDesc keys) m hmem
    have hglast : (sortDesc keys).getLast hDne ∈ keys :=
      hperm.subset (List.getLast_mem hDne)
    have hstrict := sortDesc_strict keys hnd
    have hsplit := List.dropLast_append_getLast hDne
    rw [← hsplit] at hstrict
    rw [List.pairwise_append] at hstrict
    have hlt : (sortDesc keys).getLast hDne < m :=
      hstrict.2.2 m hdl _ (List.mem_singleton_self _)
    have hle : m ≤ (sortDesc keys).getLast hDne := hmin _ hglast
    linarith
  · cases hD : sortDesc keys with
    | nil => exact absurd hD hDne
    | cons t rest =>
      have hlen := nrScan_length sigd rest t
      have hlkeys : (t :: rest).length = keys.length := by
        rw [← hD]
        exact hperm.length_eq
      rw [← hlkeys]
      exact hlen

/-- Witness for C9 at a concrete input: the two-key map, whose smallest key
0 is never kept. -/
theorem C9_min_key_never_kept_witness :
    (([(0:ℚ), 1] : List ℚ) ≠ [] ∧ ([(0:ℚ), 1] : List ℚ).Nodup ∧
      (0:ℚ) ∈ ([(0:ℚ), 1] : List ℚ) ∧
      ∀ x ∈ ([(0:ℚ), 1] : List ℚ), (0:ℚ) ≤ x) ∧
    (0:ℚ) ∉ getNonRedundantSigTimes [0, 1] lookupEx ∧
    (getNonRedundantSigTimes [0, 1] lookupEx).length + 1
      ≤ ([(0:ℚ), 1] : List ℚ).length :=
  ⟨⟨by decide, by decide, by decide, by decide⟩,
    C9_min_key_never_kept [0, 1] lookupEx (by decide) (by decide) 0
      (by decide) (by decide)⟩

end PTK
